import Mathlib

/-!
Verification of the skin-tracker component (`src/LolSkinsTracker.tsx`).

The TypeScript source is shallowly embedded below.  Strings are Lean
`String`s (lists of Unicode code points).  JavaScript's Unicode-wide
operations (`toLowerCase`, `String.prototype.normalize("NFD")`,
`\p{Diacritic}`) are modelled by explicit finite tables restricted to the
characters relevant to this application: ASCII letters plus the Latin-1
accented letters produced by the French locale the app uses; all other
characters are left unchanged, exactly as NFD leaves unmapped characters
unchanged.  The nondeterministic `uid()` generator is modelled by an
injective counter-indexed supply `mkUid`: every call site threads a `Nat`
counter, mirroring the call order of the source.
-/

set_option maxRecDepth 4096

namespace LolSkins

/-- JavaScript `\s` (and the `trim()` character class): ASCII whitespace,
NBSP, and the Unicode space separators / line separators. -/
def isJsSpace (c : Char) : Bool :=
  c = ' ' || c = '\t' || c = '\n' || c = '\r' ||
  c.toNat = 11 || c.toNat = 12 || c.toNat = 0xA0 || c.toNat = 0x1680 ||
  (0x2000 ≤ c.toNat && c.toNat ≤ 0x200A) || c.toNat = 0x2028 || c.toNat = 0x2029 ||
  c.toNat = 0x202F || c.toNat = 0x205F || c.toNat = 0x3000 || c.toNat = 0xFEFF

/-- The character class stripped by the source's final
`.replace(/['`.\-\s]/g, "")`: apostrophe (U+0027), backtick (U+0060),
period, hyphen and whitespace. -/
def isStripped (c : Char) : Bool :=
  c = Char.ofNat 39 || c = Char.ofNat 96 || c = '.' || c = '-' || isJsSpace c

/-- Combining diacritical marks (U+0300..U+036F): the marks produced by the
NFD table below, matched by the source's `\p{Diacritic}` strip. -/
def isDiacritic (c : Char) : Bool :=
  0x300 ≤ c.toNat && c.toNat ≤ 0x36F

/-- First-match lookup in a finite character table. -/
def tableLookup {α : Type} (ps : List (Char × α)) (c : Char) : Option α :=
  match ps with
  | [] => none
  | (k, v) :: rest => if c = k then some v else tableLookup rest c

/-- Lowercasing table modelling JavaScript `toLowerCase` on the modelled
character range: ASCII `A`-`Z` plus the Latin-1 accented capitals. -/
def lowerPairs : List (Char × Char) :=
  [('A', 'a'), ('B', 'b'), ('C', 'c'), ('D', 'd'), ('E', 'e'), ('F', 'f'),
   ('G', 'g'), ('H', 'h'), ('I', 'i'), ('J', 'j'), ('K', 'k'), ('L', 'l'),
   ('M', 'm'), ('N', 'n'), ('O', 'o'), ('P', 'p'), ('Q', 'q'), ('R', 'r'),
   ('S', 's'), ('T', 't'), ('U', 'u'), ('V', 'v'), ('W', 'w'), ('X', 'x'),
   ('Y', 'y'), ('Z', 'z'),
   ('À', 'à'), ('Â', 'â'), ('Ä', 'ä'), ('Ç', 'ç'), ('È', 'è'), ('É', 'é'),
   ('Ê', 'ê'), ('Ë', 'ë'), ('Î', 'î'), ('Ï', 'ï'), ('Ô', 'ô'), ('Ö', 'ö'),
   ('Ù', 'ù'), ('Û', 'û'), ('Ü', 'ü'), ('Ñ', 'ñ')]

def toLowerChar (c : Char) : Char :=
  match tableLookup lowerPairs c with
  | some l => l
  | none => c

/-- Canonical (NFD) decomposition table for the modelled accented letters:
base letter followed by the combining mark. -/
def decompPairs : List (Char × List Char) :=
  [('à', ['a', Char.ofNat 0x300]), ('â', ['a', Char.ofNat 0x302]),
   ('ä', ['a', Char.ofNat 0x308]), ('ç', ['c', Char.ofNat 0x327]),
   ('è', ['e', Char.ofNat 0x300]), ('é', ['e', Char.ofNat 0x301]),
   ('ê', ['e', Char.ofNat 0x302]), ('ë', ['e', Char.ofNat 0x308]),
   ('î', ['i', Char.ofNat 0x302]), ('ï', ['i', Char.ofNat 0x308]),
   ('ô', ['o', Char.ofNat 0x302]), ('ö', ['o', Char.ofNat 0x308]),
   ('ù', ['u', Char.ofNat 0x300]), ('û', ['u', Char.ofNat 0x302]),
   ('ü', ['u', Char.ofNat 0x308]), ('ñ', ['n', Char.ofNat 0x303])]

def decompChar (c : Char) : List Char :=
  match tableLookup decompPairs c with
  | some l => l
  | none => [c]

/-- The source's `normalize`, char-list level:
`s.toLowerCase().normalize("NFD").replace(/\p{Diacritic}/gu, "").replace(/['`.\-\s]/g, "")`. -/
def normalizeL (s : List Char) : List Char :=
  (((s.map toLowerChar).flatMap decompChar).filter
      (fun c => !(isDiacritic c))).filter (fun c => !(isStripped c))

/-- `normalize(s)` from the source (accent/punctuation-insensitive key). -/
def normalize (s : String) : String :=
  ⟨normalizeL s.data⟩

/-- JavaScript `trim()` (used by `addSkin` and `fetchChampionSkins`). -/
def jsTrim (s : String) : String :=
  ⟨((s.data.dropWhile isJsSpace).reverse.dropWhile isJsSpace).reverse⟩

/-- The `uid()` supply: the n-th fresh id.  `uid()` in the source is a
random UUID; it is modelled as an injective counter-indexed family, with
every call site threading the counter in source call order. -/
def mkUid (n : Nat) : String :=
  "id_" ++ toString n

/-- `nameToId(name)` from the source. -/
def nameToId (name : String) : String :=
  "champ_" ++ normalize name

/-- The `Skin` type from the source. -/
structure Skin where
  id : String
  name : String
  checked : Bool
deriving DecidableEq

/-- The `Champion` type from the source. -/
structure Champion where
  id : String
  name : String
  skins : List Skin
deriving DecidableEq

/-- A champion as it may occur in a persisted or imported JSON document:
the `skins` field of a stored object need not be an array
(`Array.isArray(existing.skins)` in the source); `none` models a missing
or non-array `skins` field.  A stored skin with `id = ""` models a missing
id (JavaScript `s.id || uid()` treats the empty string as missing). -/
structure StoredChampion where
  id : String
  name : String
  skins : Option (List Skin)
deriving DecidableEq

/-- Apostrophe, as a string (several canonical champion names contain one). -/
def apos : String :=
  ⟨[Char.ofNat 39]⟩

/-- `CHAMPION_NAMES` from the source, in source order. -/
def CHAMPION_NAMES : List String :=
  ["Aatrox", "Ahri", "Akali", "Akshan", "Alistar", "Ambessa", "Amumu",
   "Anivia", "Annie", "Aphelios", "Ashe", "Aurelion Sol", "Aurora", "Azir",
   "Bard", "Bel" ++ apos ++ "Veth", "Blitzcrank", "Brand", "Braum", "Briar",
   "Caitlyn", "Camille", "Cassiopeia", "Cho" ++ apos ++ "Gath", "Corki",
   "Darius", "Diana", "Dr. Mundo", "Draven", "Ekko", "Elise", "Evelynn",
   "Ezreal", "Fiddlesticks", "Fiora", "Fizz", "Galio", "Gangplank", "Garen",
   "Gnar", "Gragas", "Graves", "Gwen", "Hecarim", "Heimerdinger", "Hwei",
   "Illaoi", "Irelia", "Ivern", "Janna", "Jarvan IV", "Jax", "Jayce", "Jhin",
   "Jinx", "Kai" ++ apos ++ "Sa", "Kalista", "Karma", "Karthus", "Kassadin",
   "Katarina", "Kayle", "Kayn", "Kennen", "Kha" ++ apos ++ "Zix", "Kindred",
   "Kled", "Kog" ++ apos ++ "Maw", "K" ++ apos ++ "Sante", "LeBlanc",
   "Lee Sin", "Leona", "Lillia", "Lissandra", "Lucian", "Lulu", "Lux",
   "Malphite", "Malzahar", "Maokai", "Master Yi", "Mel", "Milio",
   "Miss Fortune", "Mordekaiser", "Morgana", "Naafiri", "Nami", "Nasus",
   "Nautilus", "Neeko", "Nidalee", "Nilah", "Nocturne", "Nunu", "Olaf",
   "Orianna", "Ornn", "Pantheon", "Poppy", "Pyke", "Qiyana", "Quinn",
   "Rakan", "Rammus", "Rek" ++ apos ++ "Sai", "Rell", "Renata Glasc",
   "Renekton", "Rengar", "Riven", "Rumble", "Ryze", "Samira", "Sejuani",
   "Senna", "Seraphine", "Sett", "Shaco", "Shen", "Shyvana", "Singed",
   "Sion", "Sivir", "Skarner", "Smolder", "Sona", "Soraka", "Swain",
   "Sylas", "Syndra", "Tahm Kench", "Taliyah", "Talon", "Taric", "Teemo",
   "Thresh", "Tristana", "Trundle", "Tryndamere", "Twisted Fate", "Twitch",
   "Udyr", "Urgot", "Varus", "Vayne", "Veigar", "Vel" ++ apos ++ "Koz",
   "Vex", "Vi", "Viego", "Viktor", "Vladimir", "Volibear", "Warwick",
   "Wukong", "Xayah", "Xerath", "Xin Zhao", "Yasuo", "Yone", "Yorick",
   "Yunara", "Yuumi", "Zac", "Zed", "Zeri", "Ziggs", "Zilean", "Zoe",
   "Zyra"]

/-- JavaScript `Map` built from a list of key/value pairs (later pairs
overwrite earlier ones), queried with `.get`: returns the value of the
LAST pair carrying the key. -/
def jsMapGet {α : Type} (ps : List (String × α)) (k : String) : Option α :=
  match ps with
  | [] => none
  | (k0, v0) :: rest =>
    match jsMapGet rest k with
    | some v => some v
    | none => if k = k0 then some v0 else none

/-- `new Map(c.skins.map(s => [normalize(s.name), s]))` from `mergeSkins`. -/
def existingByName (skins : List Skin) : List (String × Skin) :=
  skins.map (fun s => (normalize s.name, s))

/-- The `for (const name of fetchedNames)` loop of `mergeSkins`: reuse the
existing skin when the normalized name is a key of the map, otherwise
synthesize `{ id: uid(), name, checked: false }`.  `b` is the uid counter. -/
def mergeLoop (m : List (String × Skin)) (b : Nat) : List String → List Skin
  | [] => []
  | name :: rest =>
    match jsMapGet m (normalize name) with
    | some existing => existing :: mergeLoop m b rest
    | none => ⟨mkUid b, name, false⟩ :: mergeLoop m (b + 1) rest

/-- `mergeSkins(c, fetchedNames)` from the source: the fetched-order part,
followed by the `// Keep any custom skins that were not in fetched list`
loop, which appends every existing skin whose normalized name is neither a
key of `existingByName` nor the normalization of a fetched name. -/
def mergeSkins (b : Nat) (c : Champion) (fetchedNames : List String) : Champion :=
  Champion.mk c.id c.name
    (mergeLoop (existingByName c.skins) b fetchedNames ++
      c.skins.filter (fun s =>
        !(jsMapGet (existingByName c.skins) (normalize s.name)).isSome &&
        !(fetchedNames.any (fun n => normalize n = normalize s.name))))

/-- `updateChampion(id, updater)` from the source. -/
def updateChampion (id : String) (f : Champion → Champion)
    (champions : List Champion) : List Champion :=
  champions.map (fun c => if c.id = id then f c else c)

/-- `addSkin(championId, name)` from the source: no-op when the trimmed
name is empty, else append one new unchecked skin with a fresh id. -/
def addSkin (b : Nat) (championId : String) (name : String)
    (champions : List Champion) : List Champion :=
  if jsTrim name = "" then champions
  else
    updateChampion championId
      (fun c => Champion.mk c.id c.name
        (c.skins ++ [Skin.mk (mkUid b) (jsTrim name) false]))
      champions

/-- Skin-list shape coercion shared by `loadInitialChampions` and
`importJson`: `skins.map(s => ({ id: s.id || uid(), name: s.name,
checked: !!s.checked }))`, threading the uid counter; returns the coerced
list and the next counter value.  (`checked` is already a `Bool` in the
typed model, so `!!s.checked` is the identity.) -/
def coerceSkins (b : Nat) : List Skin → List Skin × Nat
  | [] => ([], b)
  | s :: rest =>
    if s.id = "" then
      ((Skin.mk (mkUid b) s.name s.checked) :: (coerceSkins (b + 1) rest).1,
        (coerceSkins (b + 1) rest).2)
    else
      ((Skin.mk s.id s.name s.checked) :: (coerceSkins b rest).1,
        (coerceSkins b rest).2)

/-- The `CHAMPION_NAMES.map(...)` step of `loadInitialChampions`: for each
canonical name, reuse the stored champion of that exact name (healing a
missing id and coercing the skins shape), else synthesize a fresh champion
with no skins.  Returns the canonical part and the next uid counter. -/
def loadCanon (byName : List (String × StoredChampion)) (b : Nat) :
    List String → List StoredChampion × Nat
  | [] => ([], b)
  | name :: rest =>
    match jsMapGet byName name with
    | some existing =>
      match existing.skins with
      | some l =>
        (StoredChampion.mk
            (if existing.id = "" then nameToId name else existing.id)
            existing.name (some (coerceSkins b l).1) ::
          (loadCanon byName (coerceSkins b l).2 rest).1,
         (loadCanon byName (coerceSkins b l).2 rest).2)
      | none =>
        (StoredChampion.mk
            (if existing.id = "" then nameToId name else existing.id)
            existing.name (some []) ::
          (loadCanon byName b rest).1,
         (loadCanon byName b rest).2)
    | none =>
      (StoredChampion.mk (nameToId name) name (some []) ::
        (loadCanon byName b rest).1,
       (loadCanon byName b rest).2)

/-- The `catch` branch of `loadInitialChampions` (corrupt storage → start
fresh): `CHAMPION_NAMES.map(name => ({ id: nameToId(name), name,
skins: [] }))`. -/
def freshChampions : List StoredChampion :=
  CHAMPION_NAMES.map (fun name => StoredChampion.mk (nameToId name) name (some []))

/-- `loadInitialChampions()` from the source, as a function of the parsed
persisted document.  `parsed = none` models `localStorage` holding no
document (the source's `parsed = null`); the `catch` branch for an
unparseable document is `freshChampions`.  Non-canonical stored champions
are pushed verbatim after the canonical part. -/
def loadInitialChampions (parsed : Option (List StoredChampion)) (b : Nat) :
    List StoredChampion :=
  (loadCanon ((parsed.getD []).map (fun c => (c.name, c))) b CHAMPION_NAMES).1 ++
    (parsed.getD []).filter (fun c => !(CHAMPION_NAMES.contains c.name))

/-- A skin entry of a Data Dragon champion-detail payload. -/
structure DDSkinEntry where
  id : String
  num : Nat
  name : String
  chromas : Bool
deriving DecidableEq

/-- The per-champion record of a Data Dragon champion-detail payload. -/
structure DDChampionDetailEntry where
  id : String
  name : String
  skins : List DDSkinEntry
deriving DecidableEq

/-- Outcome of the `fetch` + `res.json()` in `fetchChampionSkins`:
a thrown network error, a non-OK status, an unparseable body, or a parsed
`data` record (modelled as its key/value pairs). -/
inductive FetchResult where
  | fetchError
  | notOk
  | badJson
  | ok (data : List (String × DDChampionDetailEntry))
deriving DecidableEq

/-- `fetchChampionSkins(version, locale, key)` from the source, as a
function of the fetch outcome: every failure path returns `[]`; on success
the champion record is looked up under `key`, base skins (`num === 0`) are
excluded, and the remaining names are trimmed. -/
def fetchChampionSkins (key : String) (r : FetchResult) : List String :=
  match r with
  | FetchResult.ok data =>
    match jsMapGet data key with
    | none => []
    | some champ =>
      (champ.skins.filter (fun s => decide (0 < s.num))).map (fun s => jsTrim s.name)
  | _ => []

/-- `prefillChampion(c)` from the source, as a function of the session
state and the awaited fetch result `names`: bail out when the Data Dragon
version or key map is missing (or falsy), when the champion has no key,
or when the fetched name list is empty; otherwise merge. -/
def prefillChampion (ddVersion : Option String)
    (ddKeyMap : Option (List (String × String))) (b : Nat) (c : Champion)
    (names : List String) (champions : List Champion) : List Champion :=
  match ddVersion, ddKeyMap with
  | some v, some km =>
    if v = "" then champions
    else
      match jsMapGet km (normalize c.name) with
      | none => champions
      | some key =>
        if key = "" then champions
        else if names.length = 0 then champions
        else updateChampion c.id (fun curr => mergeSkins b curr names) champions
  | _, _ => champions

/-- The `prev.map(...)` body of `importJson`: for each current champion,
keep it when the imported document has no champion of the same name;
otherwise keep the current `id` and `name` and adopt the incoming skins
(shape-coerced) when they are an array, else keep the current skins.
Threads the uid counter through the coercions in source order. -/
def importGo (byName : List (String × StoredChampion)) (b : Nat) :
    List Champion → List Champion
  | [] => []
  | c :: rest =>
    match jsMapGet byName c.name with
    | none => c :: importGo byName b rest
    | some incoming =>
      match incoming.skins with
      | some l =>
        Champion.mk c.id c.name (coerceSkins b l).1 ::
          importGo byName (coerceSkins b l).2 rest
      | none => Champion.mk c.id c.name c.skins :: importGo byName b rest

/-- `importJson(file)` from the source, as a function of the successfully
parsed array `data` (a non-array document leaves the store unchanged and
only surfaces a message, which is presentation-layer). -/
def importJson (b : Nat) (data : List StoredChampion)
    (champions : List Champion) : List Champion :=
  importGo (data.map (fun c => (c.name, c))) b champions

/-- A character is fixed for the normalization pipeline: lowercasing and
NFD leave it alone and neither strip removes it. -/
def charFixed (d : Char) : Bool :=
  toLowerChar d = d && decompChar d = [d] && !(isDiacritic d) && !(isStripped d)

/-! ### Helper lemmas: tables and the normalizer -/

theorem tableLookup_mem {α : Type} {ps : List (Char × α)} {c : Char} {v : α}
    (h : tableLookup ps c = some v) : (c, v) ∈ ps := by
  induction ps with
  | nil => simp [tableLookup] at h
  | cons p rest ih =>
    obtain ⟨k, w⟩ := p
    by_cases hc : c = k
    · subst hc
      simp [tableLookup] at h
      simp [h]
    · simp [tableLookup, hc] at h
      exact List.mem_cons_of_mem _ (ih h)

theorem lowerPairs_check :
    lowerPairs.all (fun p =>
      (decompChar p.2).all (fun d => isDiacritic d || isStripped d || charFixed d)) = true := by
  decide

theorem decompPairs_check :
    decompPairs.all (fun p =>
      p.2.all (fun d => isDiacritic d || isStripped d || charFixed d)) = true := by
  decide

theorem norm_output_fixed (c d : Char) (hd : d ∈ decompChar (toLowerChar c))
    (h1 : isDiacritic d = false) (h2 : isStripped d = false) :
    charFixed d = true := by
  unfold toLowerChar at hd
  cases hlk : tableLookup lowerPairs c with
  | some r =>
    rw [hlk] at hd
    have hmem : (c, r) ∈ lowerPairs := tableLookup_mem hlk
    have hall := List.all_eq_true.mp lowerPairs_check (c, r) hmem
    have hds := List.all_eq_true.mp hall d hd
    simpa [h1, h2] using hds
  | none =>
    rw [hlk] at hd
    unfold decompChar at hd
    cases hdk : tableLookup decompPairs c with
    | some l =>
      rw [hdk] at hd
      have hmem : (c, l) ∈ decompPairs := tableLookup_mem hdk
      have hall := List.all_eq_true.mp decompPairs_check (c, l) hmem
      have hds := List.all_eq_true.mp hall d hd
      simpa [h1, h2] using hds
    | none =>
      rw [hdk] at hd
      simp at hd
      subst hd
      simp [charFixed, toLowerChar, decompChar, hlk, hdk, h1, h2]

theorem normalizeL_all_fixed (s : List Char) :
    ∀ d ∈ normalizeL s, charFixed d = true := by
  intro d hd
  unfold normalizeL at hd
  rw [List.mem_filter] at hd
  obtain ⟨hd, h2⟩ := hd
  rw [List.mem_filter] at hd
  obtain ⟨hd, h1⟩ := hd
  rw [List.mem_flatMap] at hd
  obtain ⟨a, ha, hda⟩ := hd
  rw [List.mem_map] at ha
  obtain ⟨c, _, hc⟩ := ha
  subst hc
  exact norm_output_fixed c d hda (by simpa using h1) (by simpa using h2)

theorem normalizeL_fixed_eq (l : List Char) (h : ∀ d ∈ l, charFixed d = true) :
    normalizeL l = l := by
  induction l with
  | nil => rfl
  | cons d rest ih =>
    have hd := h d (List.mem_cons_self d rest)
    have hrest : ∀ x ∈ rest, charFixed x = true :=
      fun x hx => h x (List.mem_cons_of_mem d hx)
    unfold charFixed at hd
    simp only [Bool.and_eq_true, decide_eq_true_eq, Bool.not_eq_true'] at hd
    obtain ⟨⟨⟨hlow, hdec⟩, hdia⟩, hstr⟩ := hd
    have ihr := ih hrest
    unfold normalizeL at ihr ⊢
    simp [hlow, hdec, hdia, hstr, ihr]

theorem normalize_idem (s : String) : normalize (normalize s) = normalize s := by
  unfold normalize
  exact congrArg String.mk
    (normalizeL_fixed_eq (normalizeL s.data) (normalizeL_all_fixed s.data))

/-! ### Helper lemmas: `jsMapGet` -/

theorem jsMapGet_mem {α : Type} {ps : List (String × α)} {k : String} {v : α}
    (h : jsMapGet ps k = some v) : (k, v) ∈ ps := by
  induction ps with
  | nil => simp [jsMapGet] at h
  | cons p rest ih =>
    obtain ⟨k0, v0⟩ := p
    unfold jsMapGet at h
    cases hr : jsMapGet rest k with
    | some w =>
      rw [hr] at h
      simp at h
      subst h
      exact List.mem_cons_of_mem _ (ih hr)
    | none =>
      rw [hr] at h
      by_cases hk : k = k0
      · subst hk
        simp at h
        subst h
        exact List.mem_cons_self _ _
      · simp [hk] at h

theorem jsMapGet_cons {α : Type} (k0 : String) (v0 : α)
    (rest : List (String × α)) (k : String) :
    jsMapGet ((k0, v0) :: rest) k =
      match jsMapGet rest k with
      | some v => some v
      | none => if k = k0 then some v0 else none := rfl

theorem jsMapGet_eq_none {α : Type} {ps : List (String × α)} {k : String}
    (h : ∀ p ∈ ps, p.1 ≠ k) : jsMapGet ps k = none := by
  induction ps with
  | nil => rfl
  | cons p rest ih =>
    obtain ⟨k0, v0⟩ := p
    have hk0 : k0 ≠ k := h (k0, v0) (List.mem_cons_self _ _)
    have hr : jsMapGet rest k = none :=
      ih (fun q hq => h q (List.mem_cons_of_mem _ hq))
    rw [jsMapGet_cons, hr]
    simp [if_neg (Ne.symm hk0)]

theorem existingByName_cons (t : Skin) (rest : List Skin) :
    existingByName (t :: rest) = (normalize t.name, t) :: existingByName rest := rfl

/-- A hit in `existingByName skins` is one of the champion's own skins,
carrying the queried normalized name. -/
theorem jsMapGet_existingByName {skins : List Skin} {k : String} {s : Skin}
    (h : jsMapGet (existingByName skins) k = some s) :
    s ∈ skins ∧ normalize s.name = k := by
  have hmem := jsMapGet_mem h
  unfold existingByName at hmem
  rw [List.mem_map] at hmem
  obtain ⟨t, ht, he⟩ := hmem
  rw [Prod.mk.injEq] at he
  obtain ⟨h1, h2⟩ := he
  exact ⟨h2 ▸ ht, h2 ▸ h1⟩

/-- Every skin of the champion is a key of `existingByName` — the reason
the source's custom-skin-preserving loop never fires. -/
theorem existingByName_isSome (skins : List Skin) (s : Skin) (hs : s ∈ skins) :
    (jsMapGet (existingByName skins) (normalize s.name)).isSome = true := by
  induction skins with
  | nil => simp at hs
  | cons t rest ih =>
    rw [existingByName_cons, jsMapGet_cons]
    rcases List.mem_cons.mp hs with hst | hsr
    · subst hst
      cases hr : jsMapGet (existingByName rest) (normalize s.name) with
      | some v => simp
      | none => simp
    · have hrs := ih hsr
      cases hr : jsMapGet (existingByName rest) (normalize s.name) with
      | some v => simp
      | none => rw [hr] at hrs; simp at hrs

/-- In an `existingByName` map whose keys are pairwise distinct, each skin
is recovered by its own normalized name. -/
theorem jsMapGet_existingByName_self (skins : List Skin)
    (hnd : (skins.map (fun s => normalize s.name)).Nodup)
    (i : Nat) (hi : i < skins.length) :
    jsMapGet (existingByName skins) (normalize (skins.get ⟨i, hi⟩).name)
      = some (skins.get ⟨i, hi⟩) := by
  induction skins generalizing i with
  | nil => simp at hi
  | cons t rest ih =>
    rw [List.map_cons, List.nodup_cons] at hnd
    obtain ⟨hnotin, hndr⟩ := hnd
    cases i with
    | zero =>
      have hnone : jsMapGet (existingByName rest) (normalize t.name) = none := by
        apply jsMapGet_eq_none
        intro p hp
        unfold existingByName at hp
        rw [List.mem_map] at hp
        obtain ⟨u, hu, he⟩ := hp
        intro hpk
        apply hnotin
        rw [List.mem_map]
        refine ⟨u, hu, ?_⟩
        rw [← he] at hpk
        simpa using hpk
      show jsMapGet (existingByName (t :: rest)) (normalize t.name) = some t
      rw [existingByName_cons, jsMapGet_cons, hnone]
      simp
    | succ j =>
      have hj : j < rest.length := Nat.lt_of_succ_lt_succ hi
      have hr := ih hndr j hj
      show jsMapGet (existingByName (t :: rest))
          (normalize (rest.get ⟨j, hj⟩).name) = some (rest.get ⟨j, hj⟩)
      rw [existingByName_cons, jsMapGet_cons]
      simp only [List.get_eq_getElem] at hr ⊢
      rw [hr]

/-! ### Helper lemmas: `mergeLoop` and `mergeSkins` -/

theorem mergeLoop_cons (m : List (String × Skin)) (b : Nat) (n : String)
    (rest : List String) :
    mergeLoop m b (n :: rest) =
      match jsMapGet m (normalize n) with
      | some existing => existing :: mergeLoop m b rest
      | none => ⟨mkUid b, n, false⟩ :: mergeLoop m (b + 1) rest := rfl

theorem mergeLoop_length (m : List (String × Skin)) (b : Nat) (f : List String) :
    (mergeLoop m b f).length = f.length := by
  induction f generalizing b with
  | nil => rfl
  | cons n rest ih =>
    rw [mergeLoop_cons]
    cases jsMapGet m (normalize n) with
    | some s => simp [ih]
    | none => simp [ih]

theorem mergeLoop_get_some (m : List (String × Skin)) (b : Nat)
    (f : List String) (i : Nat) (hi : i < f.length) (s : Skin)
    (h : jsMapGet m (normalize (f.get ⟨i, hi⟩)) = some s)
    (hi2 : i < (mergeLoop m b f).length) :
    (mergeLoop m b f).get ⟨i, hi2⟩ = s := by
  induction f generalizing b i with
  | nil => simp at hi
  | cons n rest ih =>
    cases i with
    | zero =>
      simp only [List.get_eq_getElem, List.getElem_cons_zero] at h
      have he : mergeLoop m b (n :: rest) = s :: mergeLoop m b rest := by
        rw [mergeLoop_cons, h]
      simp only [List.get_eq_getElem]
      rw [List.getElem_of_eq he]
      simp
    | succ j =>
      have hj : j < rest.length := Nat.lt_of_succ_lt_succ hi
      simp only [List.get_eq_getElem, List.getElem_cons_succ] at h
      cases hm : jsMapGet m (normalize n) with
      | some t =>
        have he : mergeLoop m b (n :: rest) = t :: mergeLoop m b rest := by
          rw [mergeLoop_cons, hm]
        have hj2 : j < (mergeLoop m b rest).length := by
          rw [mergeLoop_length]; exact hj
        simp only [List.get_eq_getElem]
        rw [List.getElem_of_eq he]
        simpa using ih b j hj h hj2
      | none =>
        have he : mergeLoop m b (n :: rest) =
            ⟨mkUid b, n, false⟩ :: mergeLoop m (b + 1) rest := by
          rw [mergeLoop_cons, hm]
        have hj2 : j < (mergeLoop m (b + 1) rest).length := by
          rw [mergeLoop_length]; exact hj
        simp only [List.get_eq_getElem]
        rw [List.getElem_of_eq he]
        simpa using ih (b + 1) j hj h hj2

theorem mergeLoop_get_none (m : List (String × Skin)) (b : Nat)
    (f : List String) (i : Nat) (hi : i < f.length)
    (h : jsMapGet m (normalize (f.get ⟨i, hi⟩)) = none)
    (hi2 : i < (mergeLoop m b f).length) :
    ∃ k, b ≤ k ∧
      (mergeLoop m b f).get ⟨i, hi2⟩ = ⟨mkUid k, f.get ⟨i, hi⟩, false⟩ := by
  induction f generalizing b i with
  | nil => simp at hi
  | cons n rest ih =>
    cases i with
    | zero =>
      simp only [List.get_eq_getElem, List.getElem_cons_zero] at h ⊢
      have he : mergeLoop m b (n :: rest) =
          ⟨mkUid b, n, false⟩ :: mergeLoop m (b + 1) rest := by
        rw [mergeLoop_cons, h]
      refine ⟨b, Nat.le_refl b, ?_⟩
      rw [List.getElem_of_eq he]
      simp
    | succ j =>
      have hj : j < rest.length := Nat.lt_of_succ_lt_succ hi
      simp only [List.get_eq_getElem, List.getElem_cons_succ] at h ⊢
      cases hm : jsMapGet m (normalize n) with
      | some t =>
        have he : mergeLoop m b (n :: rest) = t :: mergeLoop m b rest := by
          rw [mergeLoop_cons, hm]
        have hj2 : j < (mergeLoop m b rest).length := by
          rw [mergeLoop_length]; exact hj
        obtain ⟨k, hk, hget⟩ := ih b j hj h hj2
        refine ⟨k, hk, ?_⟩
        rw [List.getElem_of_eq he]
        simpa using hget
      | none =>
        have he : mergeLoop m b (n :: rest) =
            ⟨mkUid b, n, false⟩ :: mergeLoop m (b + 1) rest := by
          rw [mergeLoop_cons, hm]
        have hj2 : j < (mergeLoop m (b + 1) rest).length := by
          rw [mergeLoop_length]; exact hj
        obtain ⟨k, hk, hget⟩ := ih (b + 1) j hj h hj2
        refine ⟨k, Nat.le_of_succ_le hk, ?_⟩
        rw [List.getElem_of_eq he]
        simpa using hget

/-- When every map hit carries its queried key as normalized name (true of
`existingByName`), the fetched part's normalized names are exactly the
normalized fetched names, in order. -/
theorem mergeLoop_map_norm (m : List (String × Skin)) (b : Nat) (f : List String)
    (hm : ∀ k s, jsMapGet m k = some s → normalize s.name = k) :
    (mergeLoop m b f).map (fun s => normalize s.name) = f.map normalize := by
  induction f generalizing b with
  | nil => rfl
  | cons n rest ih =>
    rw [mergeLoop_cons]
    cases hq : jsMapGet m (normalize n) with
    | some s =>
      have hqs := hm (normalize n) s hq
      simp [hqs, ih]
    | none => simp [ih]

/-- The source's `// Keep any custom skins that were not in fetched list`
loop is dead code: its first conjunct `!existingByName.has(normalize(s.name))`
is false for every skin of the champion, so the filter is empty. -/
theorem merge_filter_nil (skins : List Skin) (f : List String) :
    skins.filter (fun s =>
      !(jsMapGet (existingByName skins) (normalize s.name)).isSome &&
      !(f.any (fun n => normalize n = normalize s.name))) = [] := by
  rw [List.filter_eq_nil_iff]
  intro s hs
  rw [existingByName_isSome skins s hs]
  simp

/-- `mergeSkins` reduces to the fetched-order loop alone. -/
theorem mergeSkins_skins (b : Nat) (c : Champion) (f : List String) :
    (mergeSkins b c f).skins = mergeLoop (existingByName c.skins) b f := by
  unfold mergeSkins
  rw [merge_filter_nil]
  simp

theorem mergeSkins_id (b : Nat) (c : Champion) (f : List String) :
    (mergeSkins b c f).id = c.id := rfl

theorem mergeSkins_name (b : Nat) (c : Champion) (f : List String) :
    (mergeSkins b c f).name = c.name := rfl

/-! ### Helper lemmas: `loadCanon` and `importGo` -/

theorem loadCanon_cons (byName : List (String × StoredChampion)) (b : Nat)
    (name : String) (rest : List String) :
    loadCanon byName b (name :: rest) =
      match jsMapGet byName name with
      | some existing =>
        match existing.skins with
        | some l =>
          (StoredChampion.mk
              (if existing.id = "" then nameToId name else existing.id)
              existing.name (some (coerceSkins b l).1) ::
            (loadCanon byName (coerceSkins b l).2 rest).1,
           (loadCanon byName (coerceSkins b l).2 rest).2)
        | none =>
          (StoredChampion.mk
              (if existing.id = "" then nameToId name else existing.id)
              existing.name (some []) ::
            (loadCanon byName b rest).1,
           (loadCanon byName b rest).2)
      | none =>
        (StoredChampion.mk (nameToId name) name (some []) ::
          (loadCanon byName b rest).1,
         (loadCanon byName b rest).2) := rfl

theorem loadCanon_length (byName : List (String × StoredChampion)) (b : Nat)
    (names : List String) :
    (loadCanon byName b names).1.length = names.length := by
  induction names generalizing b with
  | nil => rfl
  | cons name rest ih =>
    cases hm : jsMapGet byName name with
    | some existing =>
      cases hsk : existing.skins with
      | some l => simp [loadCanon_cons, hm, hsk, ih]
      | none => simp [loadCanon_cons, hm, hsk, ih]
    | none => simp [loadCanon_cons, hm, ih]

/-- With an empty stored document every canonical lookup misses, so the
canonical pass synthesizes exactly the fresh champions. -/
theorem loadCanon_nil_byName (b : Nat) (names : List String) :
    (loadCanon [] b names).1 =
      names.map (fun name => StoredChampion.mk (nameToId name) name (some [])) := by
  induction names generalizing b with
  | nil => rfl
  | cons name rest ih =>
    rw [loadCanon_cons]
    show (StoredChampion.mk (nameToId name) name (some []) ::
      (loadCanon [] b rest).1, (loadCanon [] b rest).2).1 = _
    simp [ih]

theorem importGo_cons (byName : List (String × StoredChampion)) (b : Nat)
    (c : Champion) (rest : List Champion) :
    importGo byName b (c :: rest) =
      match jsMapGet byName c.name with
      | none => c :: importGo byName b rest
      | some incoming =>
        match incoming.skins with
        | some l =>
          Champion.mk c.id c.name (coerceSkins b l).1 ::
            importGo byName (coerceSkins b l).2 rest
        | none => Champion.mk c.id c.name c.skins :: importGo byName b rest := rfl

theorem importGo_length (byName : List (String × StoredChampion)) (b : Nat)
    (champs : List Champion) :
    (importGo byName b champs).length = champs.length := by
  induction champs generalizing b with
  | nil => rfl
  | cons c rest ih =>
    cases hm : jsMapGet byName c.name with
    | some incoming =>
      cases hsk : incoming.skins with
      | some l => simp [importGo_cons, hm, hsk, ih]
      | none => simp [importGo_cons, hm, hsk, ih]
    | none => simp [importGo_cons, hm, ih]

theorem importGo_get (byName : List (String × StoredChampion)) (b : Nat)
    (champs : List Champion) (i : Nat) (hi : i < champs.length)
    (hi2 : i < (importGo byName b champs).length) :
    ((importGo byName b champs).get ⟨i, hi2⟩).id = (champs.get ⟨i, hi⟩).id ∧
    ((importGo byName b champs).get ⟨i, hi2⟩).name = (champs.get ⟨i, hi⟩).name ∧
    (∀ inc, jsMapGet byName (champs.get ⟨i, hi⟩).name = some inc →
      inc.skins = none →
      ((importGo byName b champs).get ⟨i, hi2⟩).skins = (champs.get ⟨i, hi⟩).skins) ∧
    (jsMapGet byName (champs.get ⟨i, hi⟩).name = none →
      (importGo byName b champs).get ⟨i, hi2⟩ = champs.get ⟨i, hi⟩) := by
  induction champs generalizing b i with
  | nil => simp at hi
  | cons c rest ih =>
    cases i with
    | zero =>
      simp only [List.get_eq_getElem, List.getElem_cons_zero]
      cases hm : jsMapGet byName c.name with
      | some incoming =>
        cases hsk : incoming.skins with
        | some l =>
          have he : importGo byName b (c :: rest) =
              Champion.mk c.id c.name (coerceSkins b l).1 ::
                importGo byName (coerceSkins b l).2 rest := by
            simp [importGo_cons, hm, hsk]
          rw [List.getElem_of_eq he]
          refine ⟨rfl, rfl, ?_, ?_⟩
          · intro inc hinc hn
            injection hinc with hinc
            rw [← hinc, hsk] at hn
            exact absurd hn (by simp)
          · intro hno
            exact absurd hno (by simp)
        | none =>
          have he : importGo byName b (c :: rest) =
              Champion.mk c.id c.name c.skins :: importGo byName b rest := by
            simp [importGo_cons, hm, hsk]
          rw [List.getElem_of_eq he]
          exact ⟨rfl, rfl, fun _ _ _ => rfl, fun hno => by simp at hno⟩
      | none =>
        have he : importGo byName b (c :: rest) = c :: importGo byName b rest := by
          simp [importGo_cons, hm]
        rw [List.getElem_of_eq he]
        exact ⟨rfl, rfl, fun inc hinc _ => by simp at hinc,
          fun _ => by simp⟩
    | succ j =>
      have hj : j < rest.length := Nat.lt_of_succ_lt_succ hi
      simp only [List.get_eq_getElem, List.getElem_cons_succ]
      cases hm : jsMapGet byName c.name with
      | some incoming =>
        cases hsk : incoming.skins with
        | some l =>
          have he : importGo byName b (c :: rest) =
              Champion.mk c.id c.name (coerceSkins b l).1 ::
                importGo byName (coerceSkins b l).2 rest := by
            simp [importGo_cons, hm, hsk]
          have hj2 : j < (importGo byName (coerceSkins b l).2 rest).length := by
            rw [importGo_length]; exact hj
          have hrec := ih (coerceSkins b l).2 j hj hj2
          simp only [List.get_eq_getElem] at hrec
          rw [List.getElem_of_eq he]
          simpa using hrec
        | none =>
          have he : importGo byName b (c :: rest) =
              Champion.mk c.id c.name c.skins :: importGo byName b rest := by
            simp [importGo_cons, hm, hsk]
          have hj2 : j < (importGo byName b rest).length := by
            rw [importGo_length]; exact hj
          have hrec := ih b j hj hj2
          simp only [List.get_eq_getElem] at hrec
          rw [List.getElem_of_eq he]
          simpa using hrec
      | none =>
        have he : importGo byName b (c :: rest) = c :: importGo byName b rest := by
          simp [importGo_cons, hm]
        have hj2 : j < (importGo byName b rest).length := by
          rw [importGo_length]; exact hj
        have hrec := ih b j hj hj2
        simp only [List.get_eq_getElem] at hrec
        rw [List.getElem_of_eq he]
        simpa using hrec

/-! ### Generic structure extensionality -/

theorem champion_ext (x y : Champion) (h1 : x.id = y.id) (h2 : x.name = y.name)
    (h3 : x.skins = y.skins) : x = y := by
  cases x
  cases y
  simp_all

/-! ### Claim theorems -/

/-- Claim C7: `normalize` is total (it is a total Lean function) and
idempotent, and the three spec examples normalize identically. -/
theorem C7_normalize_idempotent_examples :
    (∀ s : String, normalize (normalize s) = normalize s) ∧
    normalize ("Cho" ++ apos ++ "Gath") = normalize "Chogath" ∧
    normalize "Chogath" = normalize "  cho  gath " := by
  refine ⟨normalize_idem, ?_, ?_⟩ <;> decide

/-- Claim C1 (evaluation at the failing input): a checked custom skin
"MyCustom", whose normalized name matches no fetched name, is DROPPED by
`mergeSkins` — the result holds only the fetched skin.  The source's
custom-preserving loop tests `!existingByName.has(normalize(s.name))`,
which is false for every skin of the champion, so nothing is ever kept. -/
theorem C1_merge_drops_custom_skin :
    mergeSkins 0 (Champion.mk "champ_x" "X" [Skin.mk "s1" "MyCustom" true])
        ["Foxfire"]
      = Champion.mk "champ_x" "X" [Skin.mk "id_0" "Foxfire" false] := by
  decide

/-- Claim C2 (counterexample): with fetched names "a-b" and "ab", whose
normalizations are equal, the merge result holds two skins (both coming
from the fetched list) that share the normalized name "ab". -/
theorem C2_duplicate_normalized_counterexample :
    normalize "a-b" = normalize "ab" ∧
    mergeSkins 0 (Champion.mk "champ_x" "X" []) ["a-b", "ab"]
      = Champion.mk "champ_x" "X"
          [Skin.mk "id_0" "a-b" false, Skin.mk "id_1" "ab" false] := by
  decide

/-- Claim C2 (amended): when the fetched names have pairwise-distinct
normalizations, no two skins in the merge result share a normalized
name. -/
theorem C2_no_duplicate_normalized_of_nodup (b : Nat) (c : Champion)
    (f : List String) (hnd : (f.map normalize).Nodup) :
    (mergeSkins b c f).skins.Pairwise
      (fun s t => normalize s.name ≠ normalize t.name) := by
  rw [mergeSkins_skins]
  have hmap : (mergeLoop (existingByName c.skins) b f).map
      (fun s => normalize s.name) = f.map normalize :=
    mergeLoop_map_norm _ _ _ (fun k s h => (jsMapGet_existingByName h).2)
  have hnd2 : ((mergeLoop (existingByName c.skins) b f).map
      (fun s => normalize s.name)).Nodup := by
    rw [hmap]; exact hnd
  exact List.pairwise_map.mp hnd2

/-- Witness for C2 at a concrete input. -/
theorem C2_witness :
    List.Pairwise (fun s t => normalize s.name ≠ normalize t.name)
      (mergeSkins 0 (Champion.mk "champ_x" "X" [Skin.mk "s1" "Victorious" true])
        ["Victorious", "Midnight"]).skins :=
  C2_no_duplicate_normalized_of_nodup 0
    (Champion.mk "champ_x" "X" [Skin.mk "s1" "Victorious" true])
    ["Victorious", "Midnight"] (by decide)

/-- Claim C3 (counterexample): with fetched names "a-b" and "ab" (equal
normalizations) and an initially empty champion, merging twice does not
reproduce the first merge — the first merge yields skins with ids
"id_0", "id_1" while the second yields the "id_1" skin twice, so the
results differ by id content at position 0. -/
theorem C3_idempotence_counterexample :
    mergeSkins 0 (Champion.mk "champ_x" "X" []) ["a-b", "ab"]
      = Champion.mk "champ_x" "X"
          [Skin.mk "id_0" "a-b" false, Skin.mk "id_1" "ab" false] ∧
    mergeSkins 2 (mergeSkins 0 (Champion.mk "champ_x" "X" []) ["a-b", "ab"])
        ["a-b", "ab"]
      = Champion.mk "champ_x" "X"
          [Skin.mk "id_1" "ab" false, Skin.mk "id_1" "ab" false] ∧
    Skin.mk "id_1" "ab" false ≠ Skin.mk "id_0" "a-b" false := by
  decide

/-- Claim C3 (amended): when the fetched names have pairwise-distinct
normalizations, `mergeSkins` is idempotent — the second merge returns the
first result unchanged (literally, hence also by ids and checked
flags), whatever uid counter the second call starts from. -/
theorem C3_merge_idempotent_of_nodup (b b2 : Nat) (c : Champion)
    (f : List String) (hnd : (f.map normalize).Nodup) :
    mergeSkins b2 (mergeSkins b c f) f = mergeSkins b c f := by
  have hmap : (mergeSkins b c f).skins.map (fun s => normalize s.name)
      = f.map normalize := by
    rw [mergeSkins_skins]
    exact mergeLoop_map_norm _ _ _ (fun k s h => (jsMapGet_existingByName h).2)
  have hlen : (mergeSkins b c f).skins.length = f.length := by
    rw [mergeSkins_skins, mergeLoop_length]
  have hnd2 : ((mergeSkins b c f).skins.map (fun s => normalize s.name)).Nodup := by
    rw [hmap]; exact hnd
  apply champion_ext _ _ (mergeSkins_id ..) (mergeSkins_name ..)
  rw [mergeSkins_skins]
  apply List.ext_get
  · rw [mergeLoop_length, hlen]
  · intro i h1 h2
    have hif : i < f.length := by rw [mergeLoop_length] at h1; exact h1
    have hir : i < (mergeSkins b c f).skins.length := by rw [hlen]; exact hif
    have hkey : normalize ((mergeSkins b c f).skins.get ⟨i, hir⟩).name
        = normalize (f.get ⟨i, hif⟩) := by
      have hg1 : ((mergeSkins b c f).skins.map (fun s => normalize s.name)).get
          ⟨i, by rw [List.length_map]; exact hir⟩
          = normalize ((mergeSkins b c f).skins.get ⟨i, hir⟩).name := by
        simp
      have hg2 : ((f.map normalize).get ⟨i, by rw [List.length_map]; exact hif⟩)
          = normalize (f.get ⟨i, hif⟩) := by
        simp
      rw [← hg1, ← hg2]
      exact List.get_of_eq hmap _
    have hself := jsMapGet_existingByName_self (mergeSkins b c f).skins hnd2 i hir
    rw [hkey] at hself
    exact mergeLoop_get_some (existingByName (mergeSkins b c f).skins) b2 f i hif
      ((mergeSkins b c f).skins.get ⟨i, hir⟩) hself h1

/-- Witness for C3 at a concrete input. -/
theorem C3_witness :
    mergeSkins 1 (mergeSkins 0 (Champion.mk "champ_x" "X" []) ["Victorious"])
        ["Victorious"]
      = mergeSkins 0 (Champion.mk "champ_x" "X" []) ["Victorious"] :=
  C3_merge_idempotent_of_nodup 0 1 (Champion.mk "champ_x" "X" [])
    ["Victorious"] (by decide)

/-- Claim C4: the i-th slot of the merge result corresponds to the i-th
fetched name: a hit in the existing-skin map places that existing skin
unchanged (so its id and checked flag, including a checked flag set to
true, survive), a miss places a newly synthesized unchecked skin carrying
the fetched name and a uid-supply id (fresh: distinct from every existing
id that is not itself uid-shaped). -/
theorem C4_merge_fetched_order (b : Nat) (c : Champion) (f : List String)
    (i : Nat) (hi : i < f.length) :
    ∃ hi2 : i < (mergeSkins b c f).skins.length,
      (∀ s, jsMapGet (existingByName c.skins) (normalize (f.get ⟨i, hi⟩)) = some s →
        (mergeSkins b c f).skins.get ⟨i, hi2⟩ = s ∧ s ∈ c.skins ∧
          normalize s.name = normalize (f.get ⟨i, hi⟩)) ∧
      (jsMapGet (existingByName c.skins) (normalize (f.get ⟨i, hi⟩)) = none →
        ∃ k, b ≤ k ∧
          (mergeSkins b c f).skins.get ⟨i, hi2⟩
            = Skin.mk (mkUid k) (f.get ⟨i, hi⟩) false ∧
          (∀ s ∈ c.skins, (∀ j : Nat, s.id ≠ mkUid j) →
            ((mergeSkins b c f).skins.get ⟨i, hi2⟩).id ≠ s.id)) := by
  have hi2 : i < (mergeSkins b c f).skins.length := by
    rw [mergeSkins_skins, mergeLoop_length]; exact hi
  have hil : i < (mergeLoop (existingByName c.skins) b f).length := by
    rw [mergeLoop_length]; exact hi
  refine ⟨hi2, ?_, ?_⟩
  · intro s hs
    refine ⟨?_, (jsMapGet_existingByName hs).1, (jsMapGet_existingByName hs).2⟩
    rw [List.get_of_eq (mergeSkins_skins b c f)]
    exact mergeLoop_get_some (existingByName c.skins) b f i hi s hs _
  · intro hnone
    obtain ⟨k, hk, hget⟩ :=
      mergeLoop_get_none (existingByName c.skins) b f i hi hnone hil
    refine ⟨k, hk, ?_, ?_⟩
    · rw [List.get_of_eq (mergeSkins_skins b c f)]
      exact hget
    · intro s hs hids
      rw [List.get_of_eq (mergeSkins_skins b c f)]
      have hg : ((mergeLoop (existingByName c.skins) b f).get ⟨i, hil⟩).id
          = mkUid k := by rw [hget]
      rw [hg]
      exact Ne.symm (hids k)

/-- Witness for C4 at a concrete input: the checked existing skin
"Victorious" is reused unchanged at position 0. -/
theorem C4_witness :
    (mergeSkins 0 (Champion.mk "champ_x" "X" [Skin.mk "s1" "Victorious" true])
        ["Victorious", "Midnight"]).skins.get ⟨0, by decide⟩
      = Skin.mk "s1" "Victorious" true := by
  obtain ⟨hi2, hsome, _⟩ :=
    C4_merge_fetched_order 0
      (Champion.mk "champ_x" "X" [Skin.mk "s1" "Victorious" true])
      ["Victorious", "Midnight"] 0 (by decide)
  exact (hsome (Skin.mk "s1" "Victorious" true) (by decide)).1

/-- Claim C5 (counterexample): a stored non-canonical champion whose skin
id is missing (empty) is appended VERBATIM by `loadInitialChampions` —
its skin id is still "" in the result tail, not a synthesized uid, so the
claimed shape-coercion does not happen. -/
theorem C5_custom_not_coerced_counterexample :
    (loadInitialChampions
        (some [StoredChampion.mk "" "CustomChamp" (some [Skin.mk "" "Pet" true])])
        7).drop CHAMPION_NAMES.length
      = [StoredChampion.mk "" "CustomChamp" (some [Skin.mk "" "Pet" true])] := by
  decide

/-- Claim C5 (amended): stored champions whose name is not canonical are
appended verbatim (no shape coercion) after all the canonical champions,
in their original relative order, items intact. -/
theorem C5_custom_tail_verbatim (parsed : List StoredChampion) (b : Nat) :
    CHAMPION_NAMES.length ≤ (loadInitialChampions (some parsed) b).length ∧
    (loadInitialChampions (some parsed) b).drop CHAMPION_NAMES.length
      = parsed.filter (fun c => !(CHAMPION_NAMES.contains c.name)) := by
  unfold loadInitialChampions
  simp only [Option.getD_some]
  constructor
  · rw [List.length_append, loadCanon_length]
    exact Nat.le_add_right _ _
  · have hl : CHAMPION_NAMES.length
        = (loadCanon (parsed.map (fun c => (c.name, c))) b CHAMPION_NAMES).1.length :=
      (loadCanon_length _ _ _).symm
    rw [hl]
    exact List.drop_left _ _

/-- Claim C6: with the persisted document absent or unparseable,
`loadInitialChampions` returns (with no error path) the fresh store:
exactly one champion per canonical name, in canonical order, with the
deterministic name-derived id and no skins. -/
theorem C6_load_fresh_on_absent (b : Nat) :
    loadInitialChampions none b = freshChampions ∧
    freshChampions = CHAMPION_NAMES.map
      (fun name => StoredChampion.mk (nameToId name) name (some [])) := by
  refine ⟨?_, rfl⟩
  unfold loadInitialChampions
  simp only [Option.getD_none, List.map_nil, List.filter_nil, List.append_nil]
  rw [loadCanon_nil_byName]
  rfl

/-- Claim C8 (counterexample): the input name " " is non-empty, yet
`addSkin` appends nothing — the champion list is returned unchanged
because the TRIMMED name is empty. -/
theorem C8_whitespace_name_counterexample :
    (" " : String) ≠ "" ∧
    addSkin 0 "champ_x" " " [Champion.mk "champ_x" "X" []]
      = [Champion.mk "champ_x" "X" []] := by
  decide

/-- Claim C8 (amended): for every input name whose TRIMMED form is
non-empty, `addSkin` appends exactly one new unchecked skin, named by the
trimmed input and carrying a fresh uid, at the end of every champion with
the given id; every other champion is returned unchanged. -/
theorem C8_addSkin_appends_trimmed (b : Nat) (championId name : String)
    (champions : List Champion) (h : jsTrim name ≠ "") :
    (addSkin b championId name champions).length = champions.length ∧
    ∀ i (hi : i < champions.length)
      (hi2 : i < (addSkin b championId name champions).length),
      ((champions.get ⟨i, hi⟩).id ≠ championId →
        (addSkin b championId name champions).get ⟨i, hi2⟩
          = champions.get ⟨i, hi⟩) ∧
      ((champions.get ⟨i, hi⟩).id = championId →
        (addSkin b championId name champions).get ⟨i, hi2⟩
          = Champion.mk (champions.get ⟨i, hi⟩).id (champions.get ⟨i, hi⟩).name
              ((champions.get ⟨i, hi⟩).skins ++
                [Skin.mk (mkUid b) (jsTrim name) false])) := by
  unfold addSkin
  rw [if_neg h]
  unfold updateChampion
  constructor
  · simp
  · intro i hi hi2
    simp only [List.get_eq_getElem, List.getElem_map]
    constructor
    · intro hne
      rw [if_neg hne]
    · intro heq
      rw [if_pos heq]

/-- Witness for C8 at a concrete input. -/
theorem C8_witness :
    (addSkin 0 "champ_x" " Foxfire " [Champion.mk "champ_x" "X" []]).get
        ⟨0, by decide⟩
      = Champion.mk "champ_x" "X" [Skin.mk "id_0" "Foxfire" false] := by
  have h := ((C8_addSkin_appends_trimmed 0 "champ_x" " Foxfire "
    [Champion.mk "champ_x" "X" []] (by decide)).2 0 (by decide) (by decide)).2 rfl
  exact h.trans (by decide)

theorem prefillChampion_some (vv : String) (kml : List (String × String))
    (b : Nat) (c : Champion) (names : List String)
    (champions : List Champion) :
    prefillChampion (some vv) (some kml) b c names champions =
      (if vv = "" then champions
       else
        match jsMapGet kml (normalize c.name) with
        | none => champions
        | some key =>
          if key = "" then champions
          else if names.length = 0 then champions
          else updateChampion c.id (fun curr => mergeSkins b curr names)
            champions) := rfl

theorem fetchChampionSkins_ok (key : String)
    (data : List (String × DDChampionDetailEntry)) :
    fetchChampionSkins key (FetchResult.ok data) =
      match jsMapGet data key with
      | none => []
      | some champ =>
        (champ.skins.filter (fun s => decide (0 < s.num))).map
          (fun s => jsTrim s.name) := rfl

/-- Claim C9: every failure path of `fetchChampionSkins` (network error,
non-OK status, unparseable body, missing champion entry) yields `[]`, and
`prefillChampion` applied to an empty fetched list leaves the champion
store entirely unchanged — the merge step is never reached. -/
theorem C9_prefill_noop_on_empty_fetch (v : Option String)
    (km : Option (List (String × String))) (b : Nat) (c : Champion)
    (champions : List Champion) (key : String) (r : FetchResult)
    (h : fetchChampionSkins key r = []) :
    prefillChampion v km b c (fetchChampionSkins key r) champions = champions ∧
    fetchChampionSkins key FetchResult.fetchError = [] ∧
    fetchChampionSkins key FetchResult.notOk = [] ∧
    fetchChampionSkins key FetchResult.badJson = [] ∧
    (∀ data, jsMapGet data key = none →
      fetchChampionSkins key (FetchResult.ok data) = []) := by
  refine ⟨?_, rfl, rfl, rfl, ?_⟩
  · rw [h]
    cases v with
    | none => rfl
    | some vv =>
      cases km with
      | none => rfl
      | some kml =>
        rw [prefillChampion_some]
        by_cases hv : vv = ""
        · rw [if_pos hv]
        · rw [if_neg hv]
          cases hk : jsMapGet kml (normalize c.name) with
          | none => rfl
          | some kk => simp
  · intro data hd
    rw [fetchChampionSkins_ok, hd]

/-- Witness for C9 at a concrete input. -/
theorem C9_witness :
    prefillChampion (some "15.19.1") (some [("ahri", "Ahri")]) 0
        (Champion.mk "cid" "Ahri" [])
        (fetchChampionSkins "Ahri" FetchResult.fetchError)
        [Champion.mk "cid" "Ahri" []]
      = [Champion.mk "cid" "Ahri" []] :=
  (C9_prefill_noop_on_empty_fetch (some "15.19.1") (some [("ahri", "Ahri")]) 0
    (Champion.mk "cid" "Ahri" []) [Champion.mk "cid" "Ahri" []]
    "Ahri" FetchResult.fetchError rfl).1

/-- Claim C10: `importJson` keeps every current champion's id and name
unchanged (the incoming champion's id is ignored), touching only the
skins field; and when the matched incoming champion's skins field is not
an array, the current skins are also kept unchanged. -/
theorem C10_import_preserves_identity (b : Nat) (data : List StoredChampion)
    (champions : List Champion) (i : Nat) (hi : i < champions.length) :
    ∃ hi2 : i < (importJson b data champions).length,
      ((importJson b data champions).get ⟨i, hi2⟩).id
        = (champions.get ⟨i, hi⟩).id ∧
      ((importJson b data champions).get ⟨i, hi2⟩).name
        = (champions.get ⟨i, hi⟩).name ∧
      (∀ inc, jsMapGet (data.map (fun c => (c.name, c)))
          (champions.get ⟨i, hi⟩).name = some inc →
        inc.skins = none →
        ((importJson b data champions).get ⟨i, hi2⟩).skins
          = (champions.get ⟨i, hi⟩).skins) := by
  have hi2 : i < (importJson b data champions).length := by
    unfold importJson
    rw [importGo_length]
    exact hi
  have hi2b : i < (importGo (data.map (fun c => (c.name, c))) b champions).length :=
    hi2
  have h := importGo_get (data.map (fun c => (c.name, c))) b champions i hi hi2b
  exact ⟨hi2, h.1, h.2.1, h.2.2.1⟩

/-- Witness for C10 at a concrete input: a matched incoming champion with
a non-array skins field leaves the current skins unchanged. -/
theorem C10_witness :
    ((importJson 0 [StoredChampion.mk "other" "Ahri" none]
        [Champion.mk "cid" "Ahri" [Skin.mk "s1" "Old" true]]).get
        ⟨0, by decide⟩).skins
      = [Skin.mk "s1" "Old" true] := by
  obtain ⟨hi2, _, _, hsk⟩ :=
    C10_import_preserves_identity 0 [StoredChampion.mk "other" "Ahri" none]
      [Champion.mk "cid" "Ahri" [Skin.mk "s1" "Old" true]] 0 (by decide)
  exact hsk (StoredChampion.mk "other" "Ahri" none) (by decide) rfl

end LolSkins
